import Mathlib

/-!
# Verification of the MFI dashboard core (`src/mfiapp.py`)

Shallow embedding of the indicator computation and query/filter layer of the
single-file Streamlit application.  Prices and volumes are modelled as exact
rationals; a pandas `NaN`/`NA` cell is modelled as `none : Option ℚ`.

* `calculate_mfi` embeds the Python function `calculate_mfi(df, period=14)`:
  typical price, raw money flow, the positive/negative classification loop,
  the two rolling sums, the `replace(0, pd.NA)` guarded ratio, the MFI
  formula, and the final `df.dropna(subset=['MFI'])` (rows whose MFI is
  missing are removed from the returned frame).
* `df_selected_stock` embeds the stock filter of tab 1.
* `top_25_stocks` embeds the latest-day volume ranking of tab 2.
* `calculate_mfi_df` embeds the stateful view: the Python function mutates
  its argument frame by writing derived columns; the model passes the frame
  state explicitly.
-/

namespace MFIApp

/-- One OHLCV row handed to `calculate_mfi` (columns `Open Price`, `High`,
`Low`, `Close`, `Volume` of the loaded frame). -/
structure Bar where
  openPrice : ℚ
  high : ℚ
  low : ℚ
  close : ℚ
  volume : ℚ
deriving DecidableEq, Repr

instance : Inhabited Bar := ⟨⟨0, 0, 0, 0, 0⟩⟩

/-- `df['Typical_Price'] = (df['High'] + df['Low'] + df['Close']) / 3`. -/
def typical_price (s : List Bar) (i : ℕ) : ℚ :=
  ((s.getD i default).high + (s.getD i default).low + (s.getD i default).close) / 3

/-- `df['Raw_Money_Flow'] = df['Typical_Price'] * df['Volume']`. -/
def raw_money_flow (s : List Bar) (i : ℕ) : ℚ :=
  typical_price s i * (s.getD i default).volume

/-- The `Positive_MF` column: initialised to `0.0`; the loop over
`i in range(1, len(df))` overwrites row `i` with `Raw_Money_Flow[i]` when
`Typical_Price[i] > Typical_Price[i-1]`. -/
def positive_mf (s : List Bar) : ℕ → ℚ
  | 0 => 0
  | i + 1 =>
    if typical_price s (i + 1) > typical_price s i then raw_money_flow s (i + 1) else 0

/-- The `Negative_MF` column: initialised to `0.0`; the `elif` branch
overwrites row `i` with `Raw_Money_Flow[i]` when
`Typical_Price[i] < Typical_Price[i-1]`. -/
def negative_mf (s : List Bar) : ℕ → ℚ
  | 0 => 0
  | i + 1 =>
    if typical_price s (i + 1) > typical_price s i then 0
    else if typical_price s (i + 1) < typical_price s i then raw_money_flow s (i + 1)
    else 0

/-- `column.rolling(window=p).sum()` at row `i`: `NaN` (`none`) until a full
window of `p` rows is available, then the sum of rows `i - p + 1 .. i`. -/
def rolling_sum (f : ℕ → ℚ) (p i : ℕ) : Option ℚ :=
  if i + 1 < p then none
  else some (((List.range p).map (fun k => f (i + 1 - p + k))).sum)

/-- `df['Positive_MF_Sum'] = df['Positive_MF'].rolling(window=period).sum()`. -/
def positive_mf_sum (s : List Bar) (p i : ℕ) : Option ℚ :=
  rolling_sum (positive_mf s) p i

/-- `df['Negative_MF_Sum'] = df['Negative_MF'].rolling(window=period).sum()`. -/
def negative_mf_sum (s : List Bar) (p i : ℕ) : Option ℚ :=
  rolling_sum (negative_mf s) p i

/-- `df['Money_Flow_Ratio'] = df['Positive_MF_Sum'] / df['Negative_MF_Sum'].replace(0, pd.NA)`:
missing while either rolling sum is missing, and missing (not infinite) when
the negative sum is exactly zero. -/
def money_flow_ratio (s : List Bar) (p i : ℕ) : Option ℚ :=
  match positive_mf_sum s p i, negative_mf_sum s p i with
  | some ps, some ns => if ns = 0 then none else some (ps / ns)
  | _, _ => none

/-- `df['MFI'] = 100 - (100 / (1 + df['Money_Flow_Ratio']))`. -/
def mfi (s : List Bar) (p i : ℕ) : Option ℚ :=
  (money_flow_ratio s p i).map (fun r => 100 - 100 / (1 + r))

/-- `calculate_mfi(df, period)` returns `df.dropna(subset=['MFI'])`: the rows
(identified by their position in the input series) whose `MFI` cell is not
missing, paired with that MFI value, in input order. -/
def calculate_mfi (s : List Bar) (p : ℕ) : List (ℕ × ℚ) :=
  (List.range s.length).filterMap (fun i => (mfi s p i).map (fun v => (i, v)))

/-! ## Load stage (`load_data_from_gcs`) -/

/-- A raw CSV row after `pd.to_numeric(..., errors='coerce')`: a field is
`none` when the cell could not be coerced to a number. -/
structure RawBar where
  openPrice : Option ℚ
  high : Option ℚ
  low : Option ℚ
  close : Option ℚ
  volume : Option ℚ
deriving DecidableEq, Repr

/-- Wrap a fully numeric bar back into raw form (every cell coerced). -/
def RawBar.ofBar (b : Bar) : RawBar :=
  ⟨some b.openPrice, some b.high, some b.low, some b.close, some b.volume⟩

/-- A raw row is kept iff every required OHLCV cell coerced to a number. -/
def RawBar.numeric (r : RawBar) : Bool :=
  r.openPrice.isSome && r.high.isSome && r.low.isSome && r.close.isSome && r.volume.isSome

/-- The row-cleaning tail of `load_data_from_gcs`:
`df = df.dropna(subset=['Open Price', 'High', 'Low', 'Close', 'Volume'])` —
a row with any non-coercible required cell is removed from the frame. -/
def load_data_from_gcs (raw : List RawBar) : List Bar :=
  raw.filterMap (fun r =>
    match r.openPrice, r.high, r.low, r.close, r.volume with
    | some o, some h, some l, some c, some v => some ⟨o, h, l, c, v⟩
    | _, _, _, _, _ => none)

/-! ## Query layer (tab 1 stock filter, tab 2 ranking) -/

/-- One row of the full loaded dataset `df_full`, as used by the query layer.
`date` is the parsed `Date` index (a calendar date, modelled as its ordinal). -/
structure Row where
  stockCode : String
  date : ℤ
  openPrice : ℚ
  high : ℚ
  low : ℚ
  close : ℚ
  volume : ℚ
  foreignBuy : ℚ
  foreignSell : ℚ
  frequency : ℚ
deriving DecidableEq, Repr

/-- `df_selected_stock = df_full[df_full['Stock Code'] == selected_stock].copy()`:
a plain filter, preserving the frame's existing row order. -/
def df_selected_stock (d : List Row) (code : String) : List Row :=
  d.filter (fun r => r.stockCode = code)

/-- A data frame: immutable base OHLCV rows plus the derived columns the last
`calculate_mfi` call wrote into it (possibly stale or absent). -/
structure DFrame where
  rows : List Bar
  typicalCol : List ℚ
  rawMfCol : List ℚ
  posMfCol : List ℚ
  negMfCol : List ℚ
  posSumCol : List (Option ℚ)
  negSumCol : List (Option ℚ)
  ratioCol : List (Option ℚ)
  mfiCol : List (Option ℚ)

/-- The dropna view `df.dropna(subset=['MFI'])` of a frame, reading the
materialised `MFI` column. -/
def dropnaMfi (df : DFrame) : List (ℕ × ℚ) :=
  (List.range df.rows.length).filterMap
    (fun i => (df.mfiCol.getD i none).map (fun v => (i, v)))

/-- One call of `calculate_mfi(df, p)` on a frame: every derived column is
recomputed from the base OHLCV rows and written into the frame (overwriting
any previous values); the returned value is the dropna view. -/
def calculate_mfi_df (df : DFrame) (p : ℕ) : List (ℕ × ℚ) × DFrame :=
  let df2 : DFrame :=
    { rows := df.rows
      typicalCol := (List.range df.rows.length).map (typical_price df.rows)
      rawMfCol := (List.range df.rows.length).map (raw_money_flow df.rows)
      posMfCol := (List.range df.rows.length).map (positive_mf df.rows)
      negMfCol := (List.range df.rows.length).map (negative_mf df.rows)
      posSumCol := (List.range df.rows.length).map (positive_mf_sum df.rows p)
      negSumCol := (List.range df.rows.length).map (negative_mf_sum df.rows p)
      ratioCol := (List.range df.rows.length).map (money_flow_ratio df.rows p)
      mfiCol := (List.range df.rows.length).map (mfi df.rows p) }
  (dropnaMfi df2, df2)

/-- All prices and volumes of a series are non-negative (the data-model
assumption on OHLCV rows). -/
def nonnegBars (s : List Bar) : Prop :=
  ∀ b ∈ s, 0 ≤ b.high ∧ 0 ≤ b.low ∧ 0 ≤ b.close ∧ 0 ≤ b.volume

/-- A concrete 14-bar series whose typical price alternates 3, 6, 3, 6, …
(volume 1 throughout), giving seven up-bars and six down-bars inside the
first full window. -/
def altBars : List Bar :=
  [⟨3, 3, 3, 3, 1⟩, ⟨6, 6, 6, 6, 1⟩, ⟨3, 3, 3, 3, 1⟩, ⟨6, 6, 6, 6, 1⟩,
   ⟨3, 3, 3, 3, 1⟩, ⟨6, 6, 6, 6, 1⟩, ⟨3, 3, 3, 3, 1⟩, ⟨6, 6, 6, 6, 1⟩,
   ⟨3, 3, 3, 3, 1⟩, ⟨6, 6, 6, 6, 1⟩, ⟨3, 3, 3, 3, 1⟩, ⟨6, 6, 6, 6, 1⟩,
   ⟨3, 3, 3, 3, 1⟩, ⟨6, 6, 6, 6, 1⟩]

/-! ## Helper lemmas -/

theorem mem_calculate_mfi {s : List Bar} {p i : ℕ} {v : ℚ} :
    (i, v) ∈ calculate_mfi s p ↔ i < s.length ∧ mfi s p i = some v := by
  unfold calculate_mfi
  simp only [List.mem_filterMap, List.mem_range, Option.map_eq_some']
  constructor
  · rintro ⟨j, hj, w, hw, hpair⟩
    cases hpair
    exact ⟨hj, hw⟩
  · rintro ⟨hi, hv⟩
    exact ⟨i, hi, v, hv, rfl⟩

theorem filterMap_congr_mem {α β : Type} {f g : α → Option β} :
    ∀ (l : List α), (∀ a ∈ l, f a = g a) → l.filterMap f = l.filterMap g := by
  intro l
  induction l with
  | nil => intro _; rfl
  | cons a t ih =>
    intro h
    rw [List.filterMap_cons, List.filterMap_cons, h a (List.mem_cons_self a t),
      ih (fun x hx => h x (List.mem_cons_of_mem a hx))]

theorem getD_replicate (b : Bar) : ∀ (n i : ℕ),
    (List.replicate n b).getD i default = if i < n then b else default := by
  intro n
  induction n with
  | zero => intro i; simp [List.replicate]
  | succ m ih =>
    intro i
    cases i with
    | zero => simp [List.replicate]
    | succ j => simpa [List.replicate, Nat.succ_lt_succ_iff] using ih j

theorem typical_price_replicate (b : Bar) (n i : ℕ) :
    typical_price (List.replicate n b) i =
      if i < n then (b.high + b.low + b.close) / 3 else 0 := by
  unfold typical_price
  rw [getD_replicate]
  by_cases h : i < n <;> simp [h, default]

theorem raw_money_flow_replicate_of_ge (b : Bar) {n i : ℕ} (h : n ≤ i) :
    raw_money_flow (List.replicate n b) i = 0 := by
  unfold raw_money_flow
  rw [getD_replicate]
  simp [Nat.not_lt.mpr h, default]

theorem positive_mf_replicate (b : Bar) (n : ℕ) : ∀ i, positive_mf (List.replicate n b) i = 0 := by
  intro i
  cases i with
  | zero => rfl
  | succ j =>
    show (if typical_price (List.replicate n b) (j + 1) > typical_price (List.replicate n b) j
        then raw_money_flow (List.replicate n b) (j + 1) else 0) = 0
    by_cases h : j + 1 < n
    · rw [typical_price_replicate, typical_price_replicate, if_pos h,
        if_pos (Nat.lt_of_succ_lt h)]
      simp
    · rw [raw_money_flow_replicate_of_ge b (Nat.not_lt.mp h)]
      split <;> rfl

theorem negative_mf_replicate (b : Bar) (n : ℕ) : ∀ i, negative_mf (List.replicate n b) i = 0 := by
  intro i
  cases i with
  | zero => rfl
  | succ j =>
    show (if typical_price (List.replicate n b) (j + 1) > typical_price (List.replicate n b) j
        then 0
        else if typical_price (List.replicate n b) (j + 1) < typical_price (List.replicate n b) j
        then raw_money_flow (List.replicate n b) (j + 1) else 0) = 0
    by_cases h : j + 1 < n
    · rw [typical_price_replicate, typical_price_replicate, if_pos h,
        if_pos (Nat.lt_of_succ_lt h)]
      simp
    · rw [raw_money_flow_replicate_of_ge b (Nat.not_lt.mp h)]
      split
      · rfl
      · split <;> rfl

theorem rolling_sum_zero {f : ℕ → ℚ} (hf : ∀ j, f j = 0) (p i : ℕ) :
    rolling_sum f p i = if i + 1 < p then none else some 0 := by
  unfold rolling_sum
  by_cases h : i + 1 < p
  · simp [h]
  · rw [if_neg h, if_neg h]
    congr 1
    have : ((List.range p).map (fun k => f (i + 1 - p + k))) =
        (List.range p).map (fun _ => (0 : ℚ)) :=
      List.map_congr_left (fun k _ => hf _)
    rw [this]
    simp

theorem negative_mf_sum_replicate (b : Bar) (n p i : ℕ) :
    negative_mf_sum (List.replicate n b) p i = if i + 1 < p then none else some 0 :=
  rolling_sum_zero (negative_mf_replicate b n) p i

theorem mfi_replicate (b : Bar) (n p i : ℕ) :
    mfi (List.replicate n b) p i = none := by
  unfold mfi money_flow_ratio
  rw [negative_mf_sum_replicate]
  by_cases h : i + 1 < p
  · simp only [if_pos h]
    cases positive_mf_sum (List.replicate n b) p i <;> rfl
  · simp only [if_neg h]
    cases positive_mf_sum (List.replicate n b) p i <;> simp

theorem calculate_mfi_replicate (b : Bar) (n p : ℕ) :
    calculate_mfi (List.replicate n b) p = [] := by
  unfold calculate_mfi
  apply List.filterMap_eq_nil_iff.mpr
  intro i _
  rw [mfi_replicate]
  rfl

theorem positive_mf_succ (s : List Bar) (i : ℕ) :
    positive_mf s (i + 1) =
      if typical_price s (i + 1) > typical_price s i then raw_money_flow s (i + 1) else 0 :=
  rfl

theorem negative_mf_succ (s : List Bar) (i : ℕ) :
    negative_mf s (i + 1) =
      if typical_price s (i + 1) > typical_price s i then 0
      else if typical_price s (i + 1) < typical_price s i then raw_money_flow s (i + 1)
      else 0 :=
  rfl

theorem mfi_eq_none_of_short (s : List Bar) {p i : ℕ} (h : i + 1 < p) :
    mfi s p i = none := by
  unfold mfi money_flow_ratio positive_mf_sum rolling_sum
  rw [if_pos h]
  cases negative_mf_sum s p i <;> rfl

theorem rolling_sum_eq_some {f : ℕ → ℚ} {p i : ℕ} {x : ℚ}
    (h : rolling_sum f p i = some x) :
    p ≤ i + 1 ∧ x = (((List.range p).map (fun k => f (i + 1 - p + k))).sum) := by
  unfold rolling_sum at h
  by_cases hc : i + 1 < p
  · rw [if_pos hc] at h
    cases h
  · rw [if_neg hc] at h
    exact ⟨Nat.not_lt.mp hc, (Option.some_inj.mp h).symm⟩

theorem money_flow_ratio_eq_some {s : List Bar} {p i : ℕ} {r : ℚ}
    (h : money_flow_ratio s p i = some r) :
    ∃ ps ns, positive_mf_sum s p i = some ps ∧ negative_mf_sum s p i = some ns ∧
      ns ≠ 0 ∧ r = ps / ns := by
  unfold money_flow_ratio at h
  cases hps : positive_mf_sum s p i <;> cases hns : negative_mf_sum s p i <;>
    rw [hps, hns] at h
  · cases h
  · cases h
  · cases h
  case some.some ps ns =>
    change (if ns = 0 then none else some (ps / ns)) = some r at h
    by_cases hz : ns = 0
    · rw [if_pos hz] at h
      cases h
    · rw [if_neg hz] at h
      exact ⟨ps, ns, rfl, rfl, hz, (Option.some_inj.mp h).symm⟩

theorem typical_price_nonneg {s : List Bar} (hs : nonnegBars s) (i : ℕ) :
    0 ≤ typical_price s i := by
  unfold typical_price
  by_cases h : i < s.length
  · have hb := hs (s.getD i default) (by rw [List.getD_eq_getElem s default h]; exact List.getElem_mem h)
    have := hb.1
    have := hb.2.1
    have := hb.2.2.1
    positivity
  · rw [List.getD_eq_default s default (Nat.not_lt.mp h)]
    norm_num [default]

theorem volume_nonneg {s : List Bar} (hs : nonnegBars s) (i : ℕ) :
    0 ≤ (s.getD i default).volume := by
  by_cases h : i < s.length
  · exact (hs (s.getD i default)
      (by rw [List.getD_eq_getElem s default h]; exact List.getElem_mem h)).2.2.2
  · rw [List.getD_eq_default s default (Nat.not_lt.mp h)]
    norm_num [default]

theorem raw_money_flow_nonneg {s : List Bar} (hs : nonnegBars s) (i : ℕ) :
    0 ≤ raw_money_flow s i :=
  mul_nonneg (typical_price_nonneg hs i) (volume_nonneg hs i)

theorem positive_mf_nonneg {s : List Bar} (hs : nonnegBars s) (i : ℕ) :
    0 ≤ positive_mf s i := by
  cases i with
  | zero => exact le_refl 0
  | succ j =>
    rw [positive_mf_succ]
    split
    · exact raw_money_flow_nonneg hs (j + 1)
    · exact le_refl 0

theorem negative_mf_nonneg {s : List Bar} (hs : nonnegBars s) (i : ℕ) :
    0 ≤ negative_mf s i := by
  cases i with
  | zero => exact le_refl 0
  | succ j =>
    rw [negative_mf_succ]
    split
    · exact le_refl 0
    · split
      · exact raw_money_flow_nonneg hs (j + 1)
      · exact le_refl 0

theorem positive_mf_sum_nonneg {s : List Bar} (hs : nonnegBars s) {p i : ℕ} {ps : ℚ}
    (h : positive_mf_sum s p i = some ps) : 0 ≤ ps := by
  rcases rolling_sum_eq_some h with ⟨-, hx⟩
  rw [hx]
  apply List.sum_nonneg
  intro x hx2
  rcases List.mem_map.mp hx2 with ⟨k, -, hk⟩
  rw [← hk]
  exact positive_mf_nonneg hs _

theorem negative_mf_sum_nonneg {s : List Bar} (hs : nonnegBars s) {p i : ℕ} {ns : ℚ}
    (h : negative_mf_sum s p i = some ns) : 0 ≤ ns := by
  rcases rolling_sum_eq_some h with ⟨-, hx⟩
  rw [hx]
  apply List.sum_nonneg
  intro x hx2
  rcases List.mem_map.mp hx2 with ⟨k, -, hk⟩
  rw [← hk]
  exact negative_mf_nonneg hs _

theorem mfi_eq_some_bounds {s : List Bar} (hs : nonnegBars s) {p i : ℕ} {v : ℚ}
    (h : mfi s p i = some v) : p ≤ i + 1 ∧ 0 ≤ v ∧ v < 100 := by
  unfold mfi at h
  cases hr : money_flow_ratio s p i <;> rw [hr] at h
  · cases h
  case some r =>
    have hv : v = 100 - 100 / (1 + r) := (Option.some_inj.mp h).symm
    rcases money_flow_ratio_eq_some hr with ⟨ps, ns, hps, hns, hz, hrname⟩
    have hwin : p ≤ i + 1 := (rolling_sum_eq_some hps).1
    have hps0 : 0 ≤ ps := positive_mf_sum_nonneg hs hps
    have hns0 : 0 < ns := lt_of_le_of_ne (negative_mf_sum_nonneg hs hns) (Ne.symm hz)
    have hr0 : 0 ≤ r := by
      rw [hrname]
      exact div_nonneg hps0 (le_of_lt hns0)
    have h1r : (0 : ℚ) < 1 + r := by linarith
    have hle : 100 / (1 + r) ≤ 100 := by
      apply div_le_self (by norm_num)
      linarith
    have hpos : (0 : ℚ) < 100 / (1 + r) := div_pos (by norm_num) h1r
    exact ⟨hwin, by rw [hv]; constructor <;> linarith⟩

theorem mfi_altBars : mfi altBars 14 13 = some 70 := by
  norm_num [altBars, mfi, money_flow_ratio, positive_mf_sum, negative_mf_sum,
    rolling_sum, positive_mf, negative_mf, typical_price, raw_money_flow, List.range_succ]

theorem calculate_mfi_altBars : calculate_mfi altBars 14 = [(13, 70)] := by
  have hlen : altBars.length = 14 := rfl
  simp [calculate_mfi, hlen, List.range_succ, mfi_altBars, mfi_eq_none_of_short]

theorem nonnegBars_altBars : nonnegBars altBars := by
  intro b hb
  simp only [altBars, List.mem_cons, List.not_mem_nil, or_false] at hb
  rcases hb with h | h | h | h | h | h | h | h | h | h | h | h | h | h <;> rw [h] <;>
    refine ⟨by norm_num, by norm_num, by norm_num, by norm_num⟩

/-! ## Claims -/

/-- Claim C1: for every input series and every output row of the MFI
computation, if the trailing 14-bar sum of negative money flow is zero, the
MFI for that row is missing (its cell is `none`, and the row does not appear
in `calculate_mfi`'s result with any value, in particular not with 100). -/
theorem c1_zero_negative_sum_gives_missing_mfi (s : List Bar) (i : ℕ)
    (h : negative_mf_sum s 14 i = some 0) :
    mfi s 14 i = none ∧ ∀ v : ℚ, (i, v) ∉ calculate_mfi s 14 := by
  have hm : mfi s 14 i = none := by
    unfold mfi money_flow_ratio
    rw [h]
    cases positive_mf_sum s 14 i <;> simp
  refine ⟨hm, fun v hv => ?_⟩
  rcases mem_calculate_mfi.mp hv with ⟨_, hv2⟩
  rw [hm] at hv2
  cases hv2

/-- Witness for C1: a 14-bar constant series (all flat, so zero negative
flow); its 14th row has a zero trailing negative sum and a missing MFI. -/
theorem c1_witness :
    negative_mf_sum (List.replicate 14 (⟨1, 1, 1, 1, 1⟩ : Bar)) 14 13 = some 0 ∧
      mfi (List.replicate 14 (⟨1, 1, 1, 1, 1⟩ : Bar)) 14 13 = none ∧
      ∀ v : ℚ, (13, v) ∉ calculate_mfi (List.replicate 14 (⟨1, 1, 1, 1, 1⟩ : Bar)) 14 := by
  have h : negative_mf_sum (List.replicate 14 (⟨1, 1, 1, 1, 1⟩ : Bar)) 14 13 = some 0 := by
    rw [negative_mf_sum_replicate]
    simp
  have h2 := c1_zero_negative_sum_gives_missing_mfi (List.replicate 14 (⟨1, 1, 1, 1, 1⟩ : Bar)) 13 h
  exact ⟨h, h2.1, h2.2⟩

/-- Claim C4: from the 2nd bar onward, flow is classified by strict
comparison of typical prices: strictly greater puts the raw money flow in the
`Positive_MF` column only, strictly less in the `Negative_MF` column only,
and an equal (flat) typical price contributes to neither column. -/
theorem c4_flow_classification (s : List Bar) (i : ℕ) :
    (typical_price s (i + 1) > typical_price s i →
      positive_mf s (i + 1) = raw_money_flow s (i + 1) ∧ negative_mf s (i + 1) = 0) ∧
    (typical_price s (i + 1) < typical_price s i →
      negative_mf s (i + 1) = raw_money_flow s (i + 1) ∧ positive_mf s (i + 1) = 0) ∧
    (typical_price s (i + 1) = typical_price s i →
      positive_mf s (i + 1) = 0 ∧ negative_mf s (i + 1) = 0) := by
  rw [positive_mf_succ, negative_mf_succ]
  refine ⟨fun h => ⟨if_pos h, if_pos h⟩, fun h => ?_, fun h => ?_⟩
  · have h' : ¬ typical_price s (i + 1) > typical_price s i := not_lt_of_gt h
    rw [if_neg h', if_neg h', if_pos h]
    exact ⟨rfl, rfl⟩
  · have h1 : ¬ typical_price s (i + 1) > typical_price s i := by rw [h]; exact lt_irrefl _
    have h2 : ¬ typical_price s (i + 1) < typical_price s i := by rw [h]; exact lt_irrefl _
    rw [if_neg h1, if_neg h1, if_neg h2]
    exact ⟨rfl, rfl⟩

/-- Claim C10: in every row, at most one of `Positive_MF` and `Negative_MF`
is nonzero, and in the first row of the series both are zero. -/
theorem c10_positive_negative_mutually_exclusive (s : List Bar) (i : ℕ) :
    (positive_mf s i = 0 ∨ negative_mf s i = 0) ∧
      positive_mf s 0 = 0 ∧ negative_mf s 0 = 0 := by
  refine ⟨?_, rfl, rfl⟩
  cases i with
  | zero => exact Or.inl rfl
  | succ j =>
    rw [positive_mf_succ, negative_mf_succ]
    by_cases h : typical_price s (j + 1) > typical_price s j
    · exact Or.inr (if_pos h)
    · exact Or.inl (if_neg h)

/-- Counterexample to claim C2: a 14-row series (fewer than 20 rows) for
which `calculate_mfi` does NOT return every row with a missing indicator —
it returns one row carrying the computed value 70. -/
theorem c2_counterexample :
    altBars.length = 14 ∧ altBars.length < 20 ∧
      calculate_mfi altBars 14 = [(13, 70)] ∧
      (13, (70 : ℚ)) ∈ calculate_mfi altBars 14 := by
  refine ⟨rfl, by norm_num [altBars], calculate_mfi_altBars, ?_⟩
  rw [calculate_mfi_altBars]
  exact List.mem_singleton.mpr rfl

/-- Claim C2, amended: the code has no 20-row (or any) length guard and no
CMF column at all; what holds is that for every series shorter than the
14-row MFI window, `calculate_mfi` returns no computed row (the result is
empty, rows being dropped rather than marked missing); series of length
14–19 can already carry computed MFI rows. -/
theorem c2_short_series_no_computed_rows (s : List Bar) (h : s.length < 14) :
    calculate_mfi s 14 = [] := by
  unfold calculate_mfi
  apply List.filterMap_eq_nil_iff.mpr
  intro i hi
  have hlt : i + 1 < 14 :=
    Nat.succ_lt_succ (Nat.lt_of_lt_of_le (List.mem_range.mp hi) (Nat.lt_succ_iff.mp h))
  rw [mfi_eq_none_of_short s hlt]
  rfl

/-- Witness for the amended C2: a concrete 3-row series yields the empty
result. -/
theorem c2_witness :
    (List.replicate 3 (⟨1, 1, 1, 1, 1⟩ : Bar)).length < 14 ∧
      calculate_mfi (List.replicate 3 (⟨1, 1, 1, 1, 1⟩ : Bar)) 14 = [] :=
  ⟨by simp, c2_short_series_no_computed_rows _ (by simp)⟩

/-- Counterexample to claim C3: a 25-row constant series (zero negative flow
throughout) for which the output of `calculate_mfi` is empty — its length is
0, not 25, and rows 14 onward carry no value at all (they are dropped). -/
theorem c3_counterexample :
    (List.replicate 25 (⟨1, 1, 1, 1, 1⟩ : Bar)).length = 25 ∧
      calculate_mfi (List.replicate 25 (⟨1, 1, 1, 1, 1⟩ : Bar)) 14 = [] ∧
      (calculate_mfi (List.replicate 25 (⟨1, 1, 1, 1, 1⟩ : Bar)) 14).length ≠
        (List.replicate 25 (⟨1, 1, 1, 1, 1⟩ : Bar)).length := by
  have h := calculate_mfi_replicate (⟨1, 1, 1, 1, 1⟩ : Bar) 25 14
  refine ⟨by simp, h, ?_⟩
  rw [h]
  simp

/-- Claim C3, amended: the output is not length-preserving; it consists of
exactly the rows whose MFI cell is defined (rows are dropped, not marked):
membership in the output characterises a defined MFI cell at an in-range
index, every cell before the 14th row is missing, every returned row is at
least the 14th and (for a series with non-negative prices and volumes)
carries a value in [0, 100], and the output is never longer than the
input. -/
theorem c3_output_rows_characterised (s : List Bar) (hs : nonnegBars s) :
    (∀ i v, (i, v) ∈ calculate_mfi s 14 ↔ i < s.length ∧ mfi s 14 i = some v) ∧
    (∀ i, i < 13 → mfi s 14 i = none) ∧
    (∀ i v, (i, v) ∈ calculate_mfi s 14 → 13 ≤ i ∧ 0 ≤ v ∧ v ≤ 100) ∧
    (calculate_mfi s 14).length ≤ s.length := by
  refine ⟨fun i v => mem_calculate_mfi, fun i hi => mfi_eq_none_of_short s (by omega), ?_, ?_⟩
  · intro i v hmem
    have hv := (mem_calculate_mfi.mp hmem).2
    rcases mfi_eq_some_bounds hs hv with ⟨hwin, h0, h100⟩
    exact ⟨by omega, h0, le_of_lt h100⟩
  · calc (calculate_mfi s 14).length ≤ (List.range s.length).length :=
          List.length_filterMap_le _ _
      _ = s.length := List.length_range s.length

/-- Witness for the amended C3: instantiated at the concrete alternating
14-bar series, whose single output row is (13, 70). -/
theorem c3_witness :
    nonnegBars altBars ∧
      ((∀ i v, (i, v) ∈ calculate_mfi altBars 14 ↔
          i < altBars.length ∧ mfi altBars 14 i = some v) ∧
        (∀ i, i < 13 → mfi altBars 14 i = none) ∧
        (∀ i v, (i, v) ∈ calculate_mfi altBars 14 → 13 ≤ i ∧ 0 ≤ v ∧ v ≤ 100) ∧
        (calculate_mfi altBars 14).length ≤ altBars.length) :=
  ⟨nonnegBars_altBars, c3_output_rows_characterised altBars nonnegBars_altBars⟩

/-- Claim C5: for a series with non-negative prices and volumes, every MFI
value the computation emits (whenever the money-flow ratio is defined) lies
in [0, 100] and is never exactly 100. -/
theorem c5_mfi_in_range_never_100 (s : List Bar) (i : ℕ) (v : ℚ)
    (hs : nonnegBars s) (h : mfi s 14 i = some v) :
    0 ≤ v ∧ v ≤ 100 ∧ v ≠ 100 := by
  rcases mfi_eq_some_bounds hs h with ⟨-, h0, h100⟩
  exact ⟨h0, le_of_lt h100, ne_of_lt h100⟩

/-- Witness for C5: the alternating series emits the value 70 at row 14,
which is within [0, 100] and not 100. -/
theorem c5_witness :
    nonnegBars altBars ∧ mfi altBars 14 13 = some 70 ∧
      (0 ≤ (70 : ℚ) ∧ (70 : ℚ) ≤ 100 ∧ (70 : ℚ) ≠ 100) :=
  ⟨nonnegBars_altBars, mfi_altBars,
    c5_mfi_in_range_never_100 altBars 13 70 nonnegBars_altBars mfi_altBars⟩

/-- Witness for C4: concrete two-bar series exercising the strictly-up,
strictly-down and flat cases of the classification. -/
theorem c4_witness :
    (typical_price [(⟨0, 0, 0, 0, 0⟩ : Bar), ⟨3, 3, 3, 3, 1⟩] 1 >
        typical_price [(⟨0, 0, 0, 0, 0⟩ : Bar), ⟨3, 3, 3, 3, 1⟩] 0 ∧
      positive_mf [(⟨0, 0, 0, 0, 0⟩ : Bar), ⟨3, 3, 3, 3, 1⟩] 1 =
        raw_money_flow [(⟨0, 0, 0, 0, 0⟩ : Bar), ⟨3, 3, 3, 3, 1⟩] 1 ∧
      negative_mf [(⟨0, 0, 0, 0, 0⟩ : Bar), ⟨3, 3, 3, 3, 1⟩] 1 = 0) ∧
    (typical_price [(⟨3, 3, 3, 3, 1⟩ : Bar), ⟨0, 0, 0, 0, 1⟩] 1 <
        typical_price [(⟨3, 3, 3, 3, 1⟩ : Bar), ⟨0, 0, 0, 0, 1⟩] 0 ∧
      negative_mf [(⟨3, 3, 3, 3, 1⟩ : Bar), ⟨0, 0, 0, 0, 1⟩] 1 =
        raw_money_flow [(⟨3, 3, 3, 3, 1⟩ : Bar), ⟨0, 0, 0, 0, 1⟩] 1 ∧
      positive_mf [(⟨3, 3, 3, 3, 1⟩ : Bar), ⟨0, 0, 0, 0, 1⟩] 1 = 0) ∧
    (typical_price [(⟨1, 1, 1, 1, 1⟩ : Bar), ⟨1, 1, 1, 1, 1⟩] 1 =
        typical_price [(⟨1, 1, 1, 1, 1⟩ : Bar), ⟨1, 1, 1, 1, 1⟩] 0 ∧
      positive_mf [(⟨1, 1, 1, 1, 1⟩ : Bar), ⟨1, 1, 1, 1, 1⟩] 1 = 0 ∧
      negative_mf [(⟨1, 1, 1, 1, 1⟩ : Bar), ⟨1, 1, 1, 1, 1⟩] 1 = 0) := by
  have hu : typical_price [(⟨0, 0, 0, 0, 0⟩ : Bar), ⟨3, 3, 3, 3, 1⟩] 1 >
      typical_price [(⟨0, 0, 0, 0, 0⟩ : Bar), ⟨3, 3, 3, 3, 1⟩] 0 := by
    norm_num [typical_price]
  have hd : typical_price [(⟨3, 3, 3, 3, 1⟩ : Bar), ⟨0, 0, 0, 0, 1⟩] 1 <
      typical_price [(⟨3, 3, 3, 3, 1⟩ : Bar), ⟨0, 0, 0, 0, 1⟩] 0 := by
    norm_num [typical_price]
  have hf : typical_price [(⟨1, 1, 1, 1, 1⟩ : Bar), ⟨1, 1, 1, 1, 1⟩] 1 =
      typical_price [(⟨1, 1, 1, 1, 1⟩ : Bar), ⟨1, 1, 1, 1, 1⟩] 0 := rfl
  exact ⟨⟨hu, (c4_flow_classification _ 0).1 hu⟩,
    ⟨hd, (c4_flow_classification _ 0).2.1 hd⟩,
    ⟨hf, (c4_flow_classification _ 0).2.2 hf⟩⟩

/-- Counterexample to claim C6: the stock filter does not re-sort by trading
date — a dataset stored with dates out of order is returned in the same
(unsorted) order. -/
theorem c6_counterexample :
    (df_selected_stock
        [(⟨"AAAA", 2, 0, 0, 0, 0, 0, 0, 0, 0⟩ : Row), ⟨"AAAA", 1, 0, 0, 0, 0, 0, 0, 0, 0⟩]
        "AAAA").map Row.date = [2, 1] ∧
      ¬ ((df_selected_stock
          [(⟨"AAAA", 2, 0, 0, 0, 0, 0, 0, 0, 0⟩ : Row), ⟨"AAAA", 1, 0, 0, 0, 0, 0, 0, 0, 0⟩]
          "AAAA").map Row.date).Pairwise (fun a b => a ≤ b) := by
  have hsel : df_selected_stock
      [(⟨"AAAA", 2, 0, 0, 0, 0, 0, 0, 0, 0⟩ : Row), ⟨"AAAA", 1, 0, 0, 0, 0, 0, 0, 0, 0⟩]
      "AAAA" =
      [(⟨"AAAA", 2, 0, 0, 0, 0, 0, 0, 0, 0⟩ : Row), ⟨"AAAA", 1, 0, 0, 0, 0, 0, 0, 0, 0⟩] := by
    simp [df_selected_stock]
  rw [hsel]
  refine ⟨rfl, fun hp => ?_⟩
  have h2 := List.rel_of_pairwise_cons hp (List.mem_singleton.mpr rfl)
  simp at h2

/-- Claim C6, amended: `df_selected_stock` returns exactly the rows carrying
the requested stock code, in the dataset's original row order (it does not
sort by trading date); an absent stock code yields an empty frame, not an
error. -/
theorem c6_select_stock_is_filter (d : List Row) (code : String) :
    List.Sublist (df_selected_stock d code) d ∧
    (∀ r, r ∈ df_selected_stock d code ↔ r ∈ d ∧ r.stockCode = code) ∧
    ((∀ r ∈ d, r.stockCode ≠ code) → df_selected_stock d code = []) := by
  refine ⟨List.filter_sublist d, fun r => ?_, fun h => ?_⟩
  · unfold df_selected_stock
    rw [List.mem_filter]
    simp
  · unfold df_selected_stock
    rw [List.filter_eq_nil_iff]
    intro r hr
    simp [h r hr]

/-- Witness for C6: a concrete two-row dataset holds no stock "ZZZZ", and
the selection for "ZZZZ" is the empty frame. -/
theorem c6_witness :
    (∀ r ∈ [(⟨"AAAA", 2, 0, 0, 0, 0, 0, 0, 0, 0⟩ : Row), ⟨"BBBB", 1, 0, 0, 0, 0, 0, 0, 0, 0⟩],
        r.stockCode ≠ "ZZZZ") ∧
      df_selected_stock
        [(⟨"AAAA", 2, 0, 0, 0, 0, 0, 0, 0, 0⟩ : Row), ⟨"BBBB", 1, 0, 0, 0, 0, 0, 0, 0, 0⟩]
        "ZZZZ" = [] := by
  have h : ∀ r ∈ [(⟨"AAAA", 2, 0, 0, 0, 0, 0, 0, 0, 0⟩ : Row),
      ⟨"BBBB", 1, 0, 0, 0, 0, 0, 0, 0, 0⟩], r.stockCode ≠ "ZZZZ" := by
    simp
  exact ⟨h, (c6_select_stock_is_filter _ "ZZZZ").2.2 h⟩

/-- Counterexample to claim C8: a 15-row raw frame whose 8th row has a
non-coercible `Volume` cell; the loader removes that row from the series
before any indicator computation — the engine receives 14 rows, so no output
row carries a missing indicator for the bad row; the row is simply gone. -/
theorem c8_counterexample :
    ([RawBar.ofBar ⟨1, 1, 1, 1, 1⟩, RawBar.ofBar ⟨1, 1, 1, 1, 1⟩, RawBar.ofBar ⟨1, 1, 1, 1, 1⟩,
      RawBar.ofBar ⟨1, 1, 1, 1, 1⟩, RawBar.ofBar ⟨1, 1, 1, 1, 1⟩, RawBar.ofBar ⟨1, 1, 1, 1, 1⟩,
      RawBar.ofBar ⟨1, 1, 1, 1, 1⟩, ⟨some 1, some 1, some 1, some 1, none⟩,
      RawBar.ofBar ⟨1, 1, 1, 1, 1⟩, RawBar.ofBar ⟨1, 1, 1, 1, 1⟩, RawBar.ofBar ⟨1, 1, 1, 1, 1⟩,
      RawBar.ofBar ⟨1, 1, 1, 1, 1⟩, RawBar.ofBar ⟨1, 1, 1, 1, 1⟩, RawBar.ofBar ⟨1, 1, 1, 1, 1⟩,
      RawBar.ofBar ⟨1, 1, 1, 1, 1⟩] : List RawBar).length = 15 ∧
    load_data_from_gcs
      [RawBar.ofBar ⟨1, 1, 1, 1, 1⟩, RawBar.ofBar ⟨1, 1, 1, 1, 1⟩, RawBar.ofBar ⟨1, 1, 1, 1, 1⟩,
        RawBar.ofBar ⟨1, 1, 1, 1, 1⟩, RawBar.ofBar ⟨1, 1, 1, 1, 1⟩, RawBar.ofBar ⟨1, 1, 1, 1, 1⟩,
        RawBar.ofBar ⟨1, 1, 1, 1, 1⟩, ⟨some 1, some 1, some 1, some 1, none⟩,
        RawBar.ofBar ⟨1, 1, 1, 1, 1⟩, RawBar.ofBar ⟨1, 1, 1, 1, 1⟩, RawBar.ofBar ⟨1, 1, 1, 1, 1⟩,
        RawBar.ofBar ⟨1, 1, 1, 1, 1⟩, RawBar.ofBar ⟨1, 1, 1, 1, 1⟩, RawBar.ofBar ⟨1, 1, 1, 1, 1⟩,
        RawBar.ofBar ⟨1, 1, 1, 1, 1⟩] = List.replicate 14 ⟨1, 1, 1, 1, 1⟩ ∧
    (14 : ℕ) ≠ 15 := by
  refine ⟨rfl, rfl, by omega⟩

/-- Claim C8, amended: a row with a non-coercible required OHLCV cell is
dropped from the frame at load time (not retained with missing indicators):
the loader keeps exactly the fully-numeric rows, in their original order,
and never aborts on a bad row. -/
theorem c8_load_keeps_exactly_numeric_rows (raw : List RawBar) :
    (load_data_from_gcs raw).map RawBar.ofBar = raw.filter RawBar.numeric := by
  induction raw with
  | nil => rfl
  | cons r t ih =>
    rcases r with ⟨o, h, l, c, v⟩
    cases o <;> cases h <;> cases l <;> cases c <;> cases v <;>
      first
      | exact ih
      | exact congrArg (List.cons _) ih

/-- Claim C9: recomputation is idempotent — running `calculate_mfi` a second
time on the frame mutated by the first run returns the same output, and the
output is a function of the base OHLCV rows alone (the derived columns the
first call wrote are all overwritten, never read). -/
theorem c9_recompute_idempotent (df : DFrame) (p : ℕ) :
    (calculate_mfi_df (calculate_mfi_df df p).2 p).1 = (calculate_mfi_df df p).1 ∧
      (calculate_mfi_df df p).1 = calculate_mfi df.rows p := by
  constructor
  · rfl
  · unfold calculate_mfi_df dropnaMfi calculate_mfi
    apply filterMap_congr_mem
    intro i hi
    have hilt : i < df.rows.length := List.mem_range.mp hi
    have hlen : ((List.range df.rows.length).map (mfi df.rows p)).length = df.rows.length := by
      simp
    rw [List.getD_eq_getElem _ _ (by rw [hlen]; exact hilt)]
    simp

end MFIApp
